import Mathlib

/-!
Verification of the stream/model core of nionutils (Stream.py, Model.py).

Values carried by streams are modelled as `Option α` (Python values may be
`None`); stored state and the ordered log of `value_stream.fire` calls are
made explicit.  All listener delivery in the source is synchronous, so a
composite (upstream stream plus listener) is modelled as a single state
transformer whose `fires` field records the downstream fires in order.
-/

namespace Nion

/-- State of a `ValueStream` (Stream.py): the stored value `__value` and the
ordered log of values fired on `value_stream`. -/
structure VS (α : Type) where
  value : Option α
  fires : List (Option α)
deriving DecidableEq, Repr

/-- `ValueStream.send_value`: store the value, then fire it unconditionally
(`_send_value` of the base class fires always). -/
def VS.sendValue {α : Type} (s : VS α) (v : Option α) : VS α :=
  ⟨v, s.fires ++ [v]⟩

/-- `ValueStream.value` setter: compare the new value with the stored one
using `!=`; only when different, call `send_value`. -/
def VS.setValue {α : Type} [DecidableEq α] (s : VS α) (v : Option α) : VS α :=
  if s.value ≠ v then s.sendValue v else s

/-- A sequence of assignments through the `value` setter. -/
def VS.runSets {α : Type} [DecidableEq α] (s : VS α) (ops : List (Option α)) : VS α :=
  ops.foldl VS.setValue s

/-- The subsequence of `ops` keeping each element that differs from the last
kept element, where the comparison starts at `prev` (the stored value before
the first assignment). -/
def dedupFrom {α : Type} [DecidableEq α] (prev : Option α) : List (Option α) → List (Option α)
  | [] => []
  | v :: vs => if v ≠ prev then v :: dedupFrom v vs else dedupFrom prev vs

theorem vs_runSets_spec {α : Type} [DecidableEq α] (ops : List (Option α))
    (v0 : Option α) (fs : List (Option α)) :
    VS.runSets ⟨v0, fs⟩ ops =
      ⟨(dedupFrom v0 ops).getLastD v0, fs ++ dedupFrom v0 ops⟩ := by
  induction ops generalizing v0 fs with
  | nil => simp [VS.runSets, dedupFrom]
  | cons v vs ih =>
    rcases eq_or_ne v v0 with h | h
    · subst h
      have h1 : VS.runSets ⟨v, fs⟩ (v :: vs) = VS.runSets ⟨v, fs⟩ vs := by
        simp [VS.runSets, VS.setValue]
      rw [h1, ih v fs]
      simp [dedupFrom]
    · have h1 : VS.runSets ⟨v0, fs⟩ (v :: vs) = VS.runSets ⟨v, fs ++ [v]⟩ vs := by
        simp [VS.runSets, VS.setValue, VS.sendValue, if_pos (Ne.symm h)]
      rw [h1, ih v (fs ++ [v])]
      have h2 : dedupFrom v0 (v :: vs) = v :: dedupFrom v vs := by
        simp [dedupFrom, h]
      rw [h2]
      simp [← List.getLastD_eq_getLast?, List.getLastD_cons]

/-- C6: for every sequence of assignments through a `ValueStream`'s `value`
setter, `value_stream` fires exactly once per assigned value that differs
(by `!=`) from the immediately preceding stored value; an assignment equal to
the current stored value produces no fire and leaves the state unchanged; and
after each fire the `value` property equals the fired value (so at every
point the stored value is the last fired value, or the initial value when
nothing fired). -/
theorem valueStream_setter_dedup {α : Type} [DecidableEq α]
    (v0 : Option α) (ops : List (Option α)) :
    (VS.runSets ⟨v0, []⟩ ops).fires = dedupFrom v0 ops ∧
    (VS.runSets ⟨v0, []⟩ ops).value = (dedupFrom v0 ops).getLastD v0 ∧
    (∀ s : VS α, VS.setValue s s.value = s) := by
  refine ⟨?_, ?_, ?_⟩
  · rw [vs_runSets_spec]
    simp
  · rw [vs_runSets_spec]
  · intro s
    simp [VS.setValue]

/-- C10: `ValueStream.send_value` always stores the value and fires, even
when the value equals the currently stored one; the `!=` de-duplication lives
only in the `value` setter, so at an equal value `send_value` fires where the
setter does not (concrete instance: stored `some 0`, new value `some 0`). -/
theorem valueStream_sendValue_always_fires {α : Type} [DecidableEq α]
    (s : VS α) (v : Option α) :
    (VS.sendValue s v).value = v ∧
    (VS.sendValue s v).fires = s.fires ++ [v] ∧
    (VS.sendValue s v).fires ≠ s.fires ∧
    VS.setValue s s.value = s ∧
    (VS.sendValue (⟨some 0, []⟩ : VS ℕ) (some 0)).fires = [some 0] ∧
    (VS.setValue (⟨some 0, []⟩ : VS ℕ) (some 0)).fires = [] := by
  refine ⟨rfl, rfl, by simp [VS.sendValue], by simp [VS.setValue], by decide, by decide⟩

/-! MapStream (Stream.py): holds a stored mapped value (initially `None`);
its listener `update_value` recomputes `value_fn(value)` and, when the result
differs by `!=` from the stored value, stores and fires it.  `update_value`
is also called once at construction with the upstream's current value. -/

/-- `MapStream`'s `update_value` listener: recompute the mapped value and
store-and-fire it only when it differs from the stored value. -/
def mapUpdate {α β : Type} [DecidableEq β] (f : Option α → Option β)
    (s : VS β) (v : Option α) : VS β :=
  if f v ≠ s.value then VS.sendValue s (f v) else s

/-- `MapStream.__init__`: the stored value starts as `None` with no fires,
then `update_value` runs once on the upstream's construction-time value. -/
def mapInit {α β : Type} [DecidableEq β] (f : Option α → Option β)
    (v0 : Option α) : VS β :=
  mapUpdate f ⟨none, []⟩ v0

/-- A `MapStream` constructed over an upstream whose value is `v0`, after the
upstream subsequently fires the values `vs` in order. -/
def mapRun {α β : Type} [DecidableEq β] (f : Option α → Option β)
    (v0 : Option α) (vs : List (Option α)) : VS β :=
  vs.foldl (mapUpdate f) (mapInit f v0)

/-- The downstream fires emitted in response to the post-construction
upstream fires only (the construction-time fire, if any, removed). -/
def mapPostFires {α β : Type} [DecidableEq β] (f : Option α → Option β)
    (v0 : Option α) (vs : List (Option α)) : List (Option β) :=
  (mapRun f v0 vs).fires.drop (mapInit f v0).fires.length

/-- Adjacent de-duplication that always keeps the first element: the literal
reading of "the de-duplicated-by-equality sequence of f(v1)..f(vn)". -/
def dedupAdj {β : Type} [DecidableEq β] : List (Option β) → List (Option β)
  | [] => []
  | x :: xs => x :: dedupFrom x xs

theorem mapUpdate_eq_setValue {α β : Type} [DecidableEq β]
    (f : Option α → Option β) (s : VS β) (v : Option α) :
    mapUpdate f s v = VS.setValue s (f v) := by
  by_cases h : s.value = f v
  · simp [mapUpdate, VS.setValue, h]
  · simp [mapUpdate, VS.setValue, h, Ne.symm h]

theorem mapRun_eq_runSets {α β : Type} [DecidableEq β] (f : Option α → Option β)
    (v0 : Option α) (vs : List (Option α)) :
    mapRun f v0 vs = VS.runSets ⟨none, []⟩ (((v0 :: vs).map f)) := by
  have hfun : mapUpdate f = fun (s : VS β) (v : Option α) => VS.setValue s (f v) := by
    funext s v
    exact mapUpdate_eq_setValue f s v
  simp only [mapRun, mapInit, VS.runSets, List.map_cons, List.foldl_cons, List.foldl_map, hfun]

/-- C7 counterexample: with `f` constantly `None`, upstream construction value
`some 1` and one post-construction upstream fire of `some 2`, the `MapStream`
fires nothing at all (the recomputed mapped value `None` never differs from
the stored value, which starts as `None`), while the claimed
de-duplicated-by-equality sequence of the mapped fires is `[None]` — whether
or not the construction-time value is counted among the upstream values. -/
theorem mapStream_dedup_counterexample :
    mapPostFires (fun _ => (none : Option ℕ)) (some 1) [some 2] ≠
      dedupAdj ([some 2].map (fun _ => (none : Option ℕ))) ∧
    (mapRun (fun _ => (none : Option ℕ)) (some 1) [some 2]).fires ≠
      dedupAdj ([some 1, some 2].map (fun _ => (none : Option ℕ))) := by
  refine ⟨by decide, by decide⟩

/-- C7 amended: at construction and on every upstream fire the `MapStream`
recomputes `f(upstream value)` and stores-and-fires the result if and only if
it differs (by `!=`) from the last stored value, which is initially `None`;
hence the full downstream fire sequence (the construction-time recomputation
included) is the de-duplication of `f(v0), f(v1), .., f(vn)` against the
evolving stored value starting from `None` — a mapped value equal to the
previously stored one (including a leading `None`) is not fired. -/
theorem mapStream_dedup_amended {α β : Type} [DecidableEq β]
    (f : Option α → Option β) (v0 : Option α) (vs : List (Option α)) :
    (mapRun f v0 vs).fires = dedupFrom none ((v0 :: vs).map f) ∧
    (mapRun f v0 vs).value = (dedupFrom none ((v0 :: vs).map f)).getLastD none := by
  rw [mapRun_eq_runSets, vs_runSets_spec]
  exact ⟨by simp, rfl⟩

/-! ValueChangeStream (Stream.py): a `ValueStream` of `ValueChange` values
wired to an upstream stream.  `begin()` raises the `__is_active` flag and
assigns a BEGIN change carrying the upstream's current value; the upstream
listener assigns a CHANGE on every upstream fire; `end()` assigns an END and
then drops the flag.  The overridden `_send_value` fires only while active.
Each assigned `ValueChange` is a freshly constructed object and the class
defines no equality, so the inherited setter's `!=` guard (Python identity
inequality) is always true: every assignment reaches `send_value`. -/

/-- `ValueChangeType` (Stream.py): BEGIN = 0, CHANGE = 1, END = 2. -/
inductive ValueChangeType
  | BEGIN
  | CHANGE
  | END
deriving DecidableEq, Repr

/-- `ValueChange`: a state tag plus a payload value. -/
structure ValueChange (α : Type) where
  state : ValueChangeType
  value : Option α
deriving DecidableEq, Repr

/-- State of a `ValueChangeStream` over an upstream `ValueStream`: the
upstream stored value, the stream's own stored `ValueChange` (the inherited
`__value`), the `__is_active` flag, and the log of fired `ValueChange`s. -/
structure VCS (α : Type) where
  upstream : Option α
  stored : Option (ValueChange α)
  isActive : Bool
  fires : List (ValueChange α)
deriving DecidableEq, Repr

/-- Assignment through the inherited `value` setter: the fresh object always
passes the `!=` guard, so `send_value` stores it; the overridden
`_send_value` fires it only while `__is_active`. -/
def VCS.setVC {α : Type} (s : VCS α) (vc : ValueChange α) : VCS α :=
  { s with stored := some vc
           fires := if s.isActive then s.fires ++ [vc] else s.fires }

/-- `ValueChangeStream.begin`: raise the active flag, then assign a BEGIN
change carrying the upstream's current value. -/
def VCS.beginChanges {α : Type} (s : VCS α) : VCS α :=
  VCS.setVC { s with isActive := true } ⟨.BEGIN, s.upstream⟩

/-- `ValueChangeStream.end`: assign an END change carrying the upstream's
current value, then drop the active flag. -/
def VCS.endChanges {α : Type} (s : VCS α) : VCS α :=
  { VCS.setVC s ⟨.END, s.upstream⟩ with isActive := false }

/-- An upstream `value` setter assignment together with the
`ValueChangeStream` listener `__value_changed`, which assigns a CHANGE change
carrying the upstream's (new) current value whenever the upstream fires. -/
def VCS.upstreamSet {α : Type} [DecidableEq α] (s : VCS α) (x : Option α) : VCS α :=
  if s.upstream ≠ x then
    VCS.setVC { s with upstream := x } ⟨.CHANGE, x⟩
  else s

/-- A freshly constructed `ValueChangeStream` over an upstream stream whose
current value is `x0`: inactive, nothing stored, nothing fired. -/
def VCS.init {α : Type} (x0 : Option α) : VCS α :=
  ⟨x0, none, false, []⟩

/-- C1 counterexample: over an upstream with value `0`, the sequence
`begin(); set 1; set 2; end()` fires four times — BEGIN(0), CHANGE(1),
CHANGE(2), END(2) — not three as claimed: each of the two upstream sets
produces its own CHANGE fire. -/
theorem valueChangeStream_three_fires_counterexample :
    ((((VCS.init (some 0)).beginChanges.upstreamSet (some 1)).upstreamSet
        (some 2)).endChanges : VCS ℕ).fires =
      [⟨.BEGIN, some 0⟩, ⟨.CHANGE, some 1⟩, ⟨.CHANGE, some 2⟩, ⟨.END, some 2⟩] ∧
    ((((VCS.init (some 0)).beginChanges.upstreamSet (some 1)).upstreamSet
        (some 2)).endChanges : VCS ℕ).fires.length ≠ 3 := by
  refine ⟨by decide, by decide⟩

/-- C1 amended: calling `end()` without a prior `begin()` produces no fire;
for the call sequence `begin(), set x, set y, end()` over an upstream whose
value at begin-time is `x0` (with `x0 ≠ x` and `x ≠ y`), `value_stream`
fires exactly four times, in order BEGIN(x0), CHANGE(x), CHANGE(y), END(y);
and any upstream change while the stream is inactive is silently suppressed
(the fire log is unchanged), not an error. -/
theorem valueChangeStream_phase_amended {α : Type} [DecidableEq α]
    (x0 x y : α) (h1 : x0 ≠ x) (h2 : x ≠ y) :
    ((((VCS.init (some x0)).beginChanges.upstreamSet (some x)).upstreamSet
        (some y)).endChanges).fires =
      [⟨.BEGIN, some x0⟩, ⟨.CHANGE, some x⟩, ⟨.CHANGE, some y⟩, ⟨.END, some y⟩] ∧
    (VCS.init (some x0)).endChanges.fires = [] ∧
    (∀ (s : VCS α) (v : Option α), s.isActive = false →
      (VCS.upstreamSet s v).fires = s.fires) := by
  refine ⟨?_, by simp [VCS.init, VCS.endChanges, VCS.setVC], ?_⟩
  · simp [VCS.init, VCS.beginChanges, VCS.upstreamSet, VCS.setVC, VCS.endChanges, h1, h2]
  · intro s v h
    by_cases hv : s.upstream = v
    · simp [VCS.upstreamSet, hv]
    · simp [VCS.upstreamSet, VCS.setVC, hv, h]

/-- Instantiation of the amended C1 theorem at `x0 = 0`, `x = 1`, `y = 2`
and, for the suppression part, at a concrete inactive state. -/
theorem valueChangeStream_phase_amended_witness :
    ((((VCS.init (some 0)).beginChanges.upstreamSet (some 1)).upstreamSet
        (some 2)).endChanges : VCS ℕ).fires =
      [⟨.BEGIN, some 0⟩, ⟨.CHANGE, some 1⟩, ⟨.CHANGE, some 2⟩, ⟨.END, some 2⟩] ∧
    (VCS.init (some (0 : ℕ))).endChanges.fires = [] ∧
    (VCS.upstreamSet (VCS.init (some (5 : ℕ))) (some 7)).fires = [] := by
  have h := valueChangeStream_phase_amended (α := ℕ) 0 1 2 (by decide) (by decide)
  exact ⟨h.1, h.2.1, h.2.2 (VCS.init (some 5)) (some 7) rfl⟩

/-! CombineLatestStream (Stream.py): keeps a slot list `__values`, one slot
per upstream stream in input-list order; `__handle_stream_value` overwrites
one slot and calls `__values_changed`, which recomputes the combined value
with `value_fn` and fires it unconditionally; the constructor fills every
slot from its stream's current value and then calls `__values_changed`
once. -/

/-- State of a `CombineLatestStream`: the slot list `__values`, the combined
`__value`, and the fire log. -/
structure CLS (α β : Type) where
  values : List (Option α)
  value : Option β
  fires : List (Option β)
deriving DecidableEq, Repr

/-- `CombineLatestStream.__values_changed`: recompute the combined value from
the slots and fire it, with no comparison against the previous value. -/
def CLS.valuesChanged {α β : Type} (f : List (Option α) → Option β)
    (s : CLS α β) : CLS α β :=
  ⟨s.values, f s.values, s.fires ++ [f s.values]⟩

/-- `CombineLatestStream.__handle_stream_value`: overwrite slot `index` with
the fired value, then recompute and refire. -/
def CLS.handleStreamValue {α β : Type} (f : List (Option α) → Option β)
    (s : CLS α β) (index : ℕ) (v : Option α) : CLS α β :=
  CLS.valuesChanged f { s with values := s.values.set index v }

/-- `CombineLatestStream.__init__` over upstream streams `ss`: every slot is
initialized from its stream's current value, in input-list order, then
`__values_changed` runs once. -/
def CLS.ofStreams {α β : Type} (f : List (Option α) → Option β)
    (ss : List (VS α)) : CLS α β :=
  CLS.valuesChanged f ⟨ss.map VS.value, none, []⟩

/-- C5: a single upstream fire overwrites exactly that upstream's slot (the
slot at its index becomes the fired value and every other slot is unchanged)
and then unconditionally recomputes and refires the combined value — the
fire log grows by exactly the recomputed value, with no de-duplication
against the previous combined value; construction initializes every slot
from its stream's current value and fires exactly once. -/
theorem combineLatest_slots_and_fires {α β : Type}
    (f : List (Option α) → Option β) (s : CLS α β) (ss : List (VS α))
    (i : ℕ) (v : Option α) :
    (CLS.handleStreamValue f s i v).values = s.values.set i v ∧
    (i < s.values.length → (CLS.handleStreamValue f s i v).values[i]? = some v) ∧
    (∀ j : ℕ, j ≠ i → (CLS.handleStreamValue f s i v).values[j]? = s.values[j]?) ∧
    (CLS.handleStreamValue f s i v).fires = s.fires ++ [f (s.values.set i v)] ∧
    (CLS.handleStreamValue f s i v).value = f (s.values.set i v) ∧
    (CLS.ofStreams f ss).values = ss.map VS.value ∧
    (CLS.ofStreams f ss).fires = [f (ss.map VS.value)] := by
  refine ⟨rfl, ?_, ?_, rfl, rfl, rfl, rfl⟩
  · intro h
    simp [CLS.handleStreamValue, CLS.valuesChanged, List.getElem?_set, h]
  · intro j hj
    simp [CLS.handleStreamValue, CLS.valuesChanged, List.getElem?_set, Ne.symm hj]

/-- A concrete combiner for the instantiation below: sums the slots, absent
slots counting as zero. -/
def sumFn (l : List (Option ℕ)) : Option ℕ :=
  some (l.map (fun o => o.getD 0)).sum

/-- Instantiation of the C5 theorem: two upstream streams with values 1 and
2, the combiner summing the slots; upstream 0 fires 5, overwriting only slot
0 and refiring, and construction fires exactly once. -/
theorem combineLatest_slots_and_fires_witness :
    (CLS.handleStreamValue sumFn ⟨[some 1, some 2], some 3, [some 3]⟩ 0
        (some 5)).values = [some 5, some 2] ∧
    (CLS.handleStreamValue sumFn ⟨[some 1, some 2], some 3, [some 3]⟩ 0
        (some 5)).values[0]? = some (some 5) ∧
    (CLS.handleStreamValue sumFn ⟨[some 1, some 2], some 3, [some 3]⟩ 0
        (some 5)).values[1]? = some (some 2) ∧
    (CLS.handleStreamValue sumFn ⟨[some 1, some 2], some 3, [some 3]⟩ 0
        (some 5)).fires = [some 3, some 7] ∧
    (CLS.ofStreams sumFn [⟨some 1, []⟩, ⟨some 2, []⟩]).fires = [some 3] := by
  have h := combineLatest_slots_and_fires sumFn
    ⟨[some 1, some 2], some 3, [some 3]⟩ [⟨some 1, []⟩, ⟨some 2, []⟩] 0 (some 5)
  refine ⟨h.1, ?_, ?_, ?_, ?_⟩
  · have := h.2.1 (by decide)
    simpa using this
  · have := h.2.2.1 1 (by decide)
    simpa using this
  · have := h.2.2.2.1
    simpa using this
  · exact h.2.2.2.2.2.2

/-! StreamTask (Stream.py): holds at most one scheduled task.  `create_task`
asserts no task is held, stores the created task's handle and installs a
`zero_task` done callback that clears the handle; `clear` cancels the held
task, if any, and drops the handle immediately. -/

/-- State of a `StreamTask` with the surrounding loop's bookkeeping: the held
handle `__task` as a task id, the id the loop hands out next, and the log of
cancellation requests issued so far. -/
structure STask where
  held : Option ℕ
  nextId : ℕ
  cancelRequests : List ℕ
deriving DecidableEq, Repr

/-- `StreamTask.is_active`: whether a task handle is currently held. -/
def STask.isActive (s : STask) : Bool :=
  s.held.isSome

/-- `StreamTask.create_task`: asserts `self.__task is None`, then creates a
task and stores its handle; the assertion failure is the error case. -/
def STask.createTask (s : STask) : Except String (STask × ℕ) :=
  match s.held with
  | some _ => .error "create_task called while a task is active"
  | none => .ok (⟨some s.nextId, s.nextId + 1, s.cancelRequests⟩, s.nextId)

/-- The `zero_task` done callback, run when the created task completes,
normally or by cancellation: it clears the held handle. -/
def STask.zeroTask (s : STask) : STask :=
  ⟨none, s.nextId, s.cancelRequests⟩

/-- `StreamTask.clear`: request cancellation of the held task, if any, and
drop the handle immediately. -/
def STask.clear (s : STask) : STask :=
  match s.held with
  | some t => ⟨none, s.nextId, s.cancelRequests ++ [t]⟩
  | none => ⟨none, s.nextId, s.cancelRequests⟩

/-- C8: `is_active` is true iff a task handle is held; `create_task` while a
task is active fails fast with the assertion; after the done callback runs
(normal completion or cancellation) the handle is cleared and a subsequent
`create_task` succeeds; `clear` requests cancellation of the held task (if
any), immediately drops the handle, and leaves `is_active` false. -/
theorem streamTask_lifecycle (s : STask) (t : ℕ) :
    (s.isActive = true ↔ ∃ u, s.held = some u) ∧
    (s.held = some t → STask.createTask s =
      .error "create_task called while a task is active") ∧
    (s.held = none → STask.createTask s =
      .ok (⟨some s.nextId, s.nextId + 1, s.cancelRequests⟩, s.nextId)) ∧
    (STask.zeroTask s).held = none ∧
    (STask.zeroTask s).createTask =
      .ok (⟨some s.nextId, s.nextId + 1, s.cancelRequests⟩, s.nextId) ∧
    (s.held = some t → STask.clear s = ⟨none, s.nextId, s.cancelRequests ++ [t]⟩) ∧
    (STask.clear s).isActive = false := by
  refine ⟨?_, ?_, ?_, rfl, rfl, ?_, ?_⟩
  · simp [STask.isActive, Option.isSome_iff_exists]
  · intro h
    simp [STask.createTask, h]
  · intro h
    simp [STask.createTask, h]
  · intro h
    simp [STask.clear, h]
  · cases h : s.held <;> simp [STask.clear, STask.isActive, h]

/-- Instantiation of the C8 theorem at a state holding task 4: creation
fails, clearing cancels task 4 and drops the handle, the done callback
clears the handle. -/
theorem streamTask_lifecycle_witness :
    STask.createTask ⟨some 4, 5, []⟩ =
      .error "create_task called while a task is active" ∧
    STask.clear ⟨some 4, 5, []⟩ = ⟨none, 5, [4]⟩ ∧
    (STask.zeroTask ⟨some 4, 5, []⟩).held = none ∧
    (STask.zeroTask ⟨some 4, 5, []⟩).createTask = .ok (⟨some 5, 6, []⟩, 5) := by
  have h := streamTask_lifecycle ⟨some 4, 5, []⟩ 4
  exact ⟨h.2.1 rfl, h.2.2.2.2.2.1 rfl, h.2.2.2.1, h.2.2.2.2.1⟩

/-! SampleStream (Stream.py): the upstream listener stores the fired value
into the shared `SampleValue` holder and raises its dirty bit; `sample_loop`
wakes every `period`, and on a wake with the dirty bit set it copies the
pending value into the current value, clears the bit and fires.  Wake tick
`k` occurs at time `k * period` after construction. -/

/-- The `SampleValue` holder plus the loop's observable history: current
value, pending value, dirty bit, number of wake ticks so far, and the fires
tagged by the tick index at which they occurred. -/
structure SampleState (α : Type) where
  value : Option α
  pending : Option α
  dirty : Bool
  ticks : ℕ
  fires : List (ℕ × Option α)
deriving DecidableEq, Repr

/-- An event seen by the sample machinery: an upstream fire of `v`, or one
wake of `sample_loop`. -/
inductive SampleEvent (α : Type)
  | set (v : Option α)
  | tick
deriving DecidableEq, Repr

/-- One step: `set v` is `__value_changed`/`set_pending_value` (store the
pending value, raise the dirty bit); `tick` is one wake of `sample_loop`
(when dirty: copy pending into current, clear dirty, fire). -/
def sampleStep {α : Type} (s : SampleState α) : SampleEvent α → SampleState α
  | .set v => { s with pending := v, dirty := true }
  | .tick =>
    if s.dirty then
      ⟨s.pending, s.pending, false, s.ticks + 1, s.fires ++ [(s.ticks + 1, s.pending)]⟩
    else { s with ticks := s.ticks + 1 }

/-- `SampleStream.__init__`: the current value starts from the upstream's
value; nothing pending, not dirty, no ticks yet. -/
def sampleInit {α : Type} (v0 : Option α) : SampleState α :=
  ⟨v0, none, false, 0, []⟩

/-- A `SampleStream` over an upstream with construction-time value `v0`,
after the given sequence of upstream fires and loop wakes. -/
def sampleRun {α : Type} (v0 : Option α) (evs : List (SampleEvent α)) : SampleState α :=
  evs.foldl sampleStep (sampleInit v0)

theorem sampleTicks_clean {α : Type} (n : ℕ) (s : SampleState α) (h : s.dirty = false) :
    (List.replicate n SampleEvent.tick).foldl sampleStep s = { s with ticks := s.ticks + n } := by
  induction n generalizing s with
  | zero => simp
  | succ n ih =>
    rw [List.replicate_succ, List.foldl_cons]
    have hstep : sampleStep s .tick = { s with ticks := s.ticks + 1 } := by
      simp [sampleStep, h]
    rw [hstep, ih _ (by simp [h])]
    simp [Nat.add_assoc, Nat.add_comm 1 n]

/-- C9: an upstream fire never fires downstream (it only stores the pending
value and raises the dirty bit); a loop wake fires exactly the pending value
when the dirty bit is set and nothing otherwise, and a firing wake also
copies the pending value into the current value and clears the dirty bit; in
particular a single upstream fire followed by any positive number of wakes
fires exactly once, at the first wake (tick 1, i.e. time `period`), carrying
the set value. -/
theorem sampleStream_dirty_gating {α : Type} (v0 v : Option α) (n : ℕ)
    (s : SampleState α) :
    (sampleStep s (.set v)).fires = s.fires ∧
    (sampleStep s (.set v)).dirty = true ∧
    (sampleStep s (.set v)).pending = v ∧
    (sampleStep s .tick).fires =
      (if s.dirty then s.fires ++ [(s.ticks + 1, s.pending)] else s.fires) ∧
    (s.dirty = true →
      (sampleStep s .tick).value = s.pending ∧ (sampleStep s .tick).dirty = false) ∧
    (s.dirty = false → sampleStep s .tick = { s with ticks := s.ticks + 1 }) ∧
    (sampleRun v0 (.set v :: List.replicate (n + 1) .tick)).fires = [(1, v)] := by
  refine ⟨rfl, rfl, rfl, ?_, ?_, ?_, ?_⟩
  · by_cases h : s.dirty <;> simp [sampleStep, h]
  · intro h
    constructor <;> simp [sampleStep, h]
  · intro h
    simp [sampleStep, h]
  · rw [sampleRun, List.foldl_cons, List.replicate_succ, List.foldl_cons]
    have h1 : sampleStep (sampleInit v0) (.set v) = ⟨v0, v, true, 0, []⟩ := rfl
    have h2 : sampleStep (⟨v0, v, true, 0, []⟩ : SampleState α) .tick =
        ⟨v, v, false, 1, [(1, v)]⟩ := by
      simp [sampleStep]
    rw [h1, h2, sampleTicks_clean n _ rfl]

/-- Instantiation of the C9 theorem: a dirty state at tick 0 with pending 3
fires (1, 3) on the next wake and clears the bit; a clean tick only counts;
one set of 7 followed by two wakes fires exactly [(1, 7)]. -/
theorem sampleStream_dirty_gating_witness :
    (sampleStep (⟨none, some 3, true, 0, []⟩ : SampleState ℕ) .tick).value = some 3 ∧
    (sampleStep (⟨none, some 3, true, 0, []⟩ : SampleState ℕ) .tick).dirty = false ∧
    sampleStep (⟨none, some 3, false, 0, []⟩ : SampleState ℕ) .tick =
      ⟨none, some 3, false, 1, []⟩ ∧
    (sampleRun (none : Option ℕ) (.set (some 7) :: List.replicate 2 .tick)).fires =
      [(1, some 7)] := by
  have h := sampleStream_dirty_gating (none : Option ℕ) (some 7) 1
    ⟨none, some 3, true, 0, []⟩
  have h2 := sampleStream_dirty_gating (none : Option ℕ) (some 7) 1
    ⟨none, some 3, false, 0, []⟩
  exact ⟨(h.2.2.2.2.1 rfl).1, (h.2.2.2.2.1 rfl).2, h2.2.2.2.2.2.1 rfl,
    h.2.2.2.2.2.2⟩

/-! PropertyModel and StreamValueModel (Model.py).  The `PropertyModel.value`
setter treats `None`-vs-value transitions as always a change and otherwise
asks the configurable comparator `cmp(new, old)`; on a change it stores the
new value.  `StreamValueModel` assigns every fired upstream value to the
model's `value` through that setter, and at construction assigns the
upstream's `value` property once. -/

/-- `PropertyModel.value` setter: `cur` is the stored value, `v` the assigned
one; returns the stored value afterwards. -/
def pmSet {α : Type} (cmp : Option α → Option α → Bool) (cur v : Option α) :
    Option α :=
  match cur, v with
  | none, none => none
  | none, some b => some b
  | some _, none => none
  | some a, some b => if cmp (some b) (some a) then some a else some b

/-- The default comparator `operator.eq`. -/
def eqCmp {α : Type} [DecidableEq α] (a b : Option α) : Bool :=
  a = b

/-- `OptionalStream.value` property: always `None`, whatever was fired. -/
def optionalStreamValue {α : Type} : Option α :=
  none

/-- `OptionalStream.__value_changed`: fire the value itself when the
predicate accepts it, else fire `None`. -/
def optFired {α : Type} (pred : Option α → Bool) (v : Option α) : Option α :=
  if pred v then v else none

/-- Composite of a leaf `ValueStream`, an `OptionalStream` over it, and a
`StreamValueModel` over the `OptionalStream`: the upstream stored value and
the model's stored property value. -/
structure OptModel (α : Type) where
  upstream : Option α
  modelValue : Option α
deriving DecidableEq, Repr

/-- `StreamValueModel.__init__` over the `OptionalStream`: `handle_value` is
called once with the stream's `value` property, which is `None`. -/
def optModelInit {α : Type} (cmp : Option α → Option α → Bool)
    (u0 : Option α) : OptModel α :=
  ⟨u0, pmSet cmp none optionalStreamValue⟩

/-- An upstream setter assignment propagated through the `OptionalStream`
listener into the model's `handle_value`. -/
def optModelSet {α : Type} [DecidableEq α] (cmp : Option α → Option α → Bool)
    (pred : Option α → Bool) (s : OptModel α) (x : Option α) : OptModel α :=
  if s.upstream ≠ x then
    ⟨x, pmSet cmp s.modelValue (optFired pred x)⟩
  else s

/-- C4 counterexample: a `StreamValueModel` (default comparator) over an
`OptionalStream` (predicate always true) over a `ValueStream` holding 1;
after the upstream fires 2, the model's value is 2 while the
`OptionalStream`'s `value` property is still `None`: the claimed round-trip
fails for an upstream whose fired value differs from its `value` property. -/
theorem streamValueModel_roundtrip_counterexample :
    (optModelSet eqCmp (fun _ => true) (optModelInit eqCmp (some 1))
        (some (2 : ℕ))).modelValue = some 2 ∧
    (optionalStreamValue : Option ℕ) = none ∧
    (optModelSet eqCmp (fun _ => true) (optModelInit eqCmp (some 1))
        (some (2 : ℕ))).modelValue ≠ (optionalStreamValue : Option ℕ) := by
  refine ⟨by decide, rfl, by decide⟩

/-- With the default comparator the `PropertyModel` setter always leaves the
assigned value (an equal stored value is kept, but it is then equal to the
assigned one). -/
theorem pmSet_eqCmp {α : Type} [DecidableEq α] (cur v : Option α) :
    pmSet eqCmp cur v = v := by
  cases cur with
  | none => cases v <;> rfl
  | some a =>
    cases v with
    | none => rfl
    | some b =>
      by_cases h : b = a
      · simp [pmSet, eqCmp, h]
      · simp [pmSet, eqCmp, h]

/-- Composite of a leaf `ValueStream` and a `StreamValueModel` (default
comparator) directly over it. -/
structure SVModel (α : Type) where
  upstream : Option α
  modelValue : Option α
deriving DecidableEq, Repr

/-- `StreamValueModel.__init__` over a `ValueStream` with value `u0`:
`handle_value` runs once with the stream's `value` property. -/
def svmInit {α : Type} [DecidableEq α] (u0 : Option α) : SVModel α :=
  ⟨u0, pmSet eqCmp none u0⟩

/-- An upstream setter assignment: when it differs the stream stores and
fires it, and the model's `handle_value` assigns the fired value. -/
def svmSet {α : Type} [DecidableEq α] (s : SVModel α) (x : Option α) : SVModel α :=
  if s.upstream ≠ x then ⟨x, pmSet eqCmp s.modelValue x⟩ else s

/-- A `StreamValueModel` over a `ValueStream` with construction-time value
`u0` after a sequence of upstream setter assignments. -/
def svmRun {α : Type} [DecidableEq α] (u0 : Option α) (ops : List (Option α)) :
    SVModel α :=
  ops.foldl svmSet (svmInit u0)

/-- C4 amended: for a `StreamValueModel` with the default comparator over a
`ValueStream` — an upstream whose fired value equals its `value` property at
fire time — the model's value equals the upstream's value immediately after
construction and after every upstream assignment; the claim fails for
`OptionalStream`, whose `value` property is always `None` while it fires
non-`None` values (see the counterexample). -/
theorem streamValueModel_roundtrip_amended {α : Type} [DecidableEq α]
    (u0 : Option α) (ops : List (Option α)) :
    (svmRun u0 ops).modelValue = (svmRun u0 ops).upstream ∧
    (svmInit u0).modelValue = u0 := by
  have hinv : ∀ (s : SVModel α) (x : Option α),
      s.modelValue = s.upstream → (svmSet s x).modelValue = (svmSet s x).upstream := by
    intro s x h
    by_cases hx : s.upstream = x
    · simp [svmSet, hx, h]
    · simp [svmSet, hx, pmSet_eqCmp]
  have hrun : ∀ (l : List (Option α)) (s : SVModel α),
      s.modelValue = s.upstream → (l.foldl svmSet s).modelValue = (l.foldl svmSet s).upstream := by
    intro l
    induction l with
    | nil => intro s h; simpa using h
    | cons x xs ih =>
      intro s h
      rw [List.foldl_cons]
      exact ih _ (hinv s x h)
  have hinit : (svmInit u0).modelValue = u0 := by
    simp [svmInit, pmSet_eqCmp]
  exact ⟨hrun ops (svmInit u0) hinit, hinit⟩

/-! DebounceStream (Stream.py): the upstream listener `__value_changed`
stashes the value into the shared `DebounceValue` holder and, only when the
`StreamTask` holds no task, schedules `debounce_delay`, which sleeps for
`period` and then fires the holder's current value; its completion clears
the task slot.  The constructor calls `__value_changed` once with the
upstream's current value.  Events are timed; times are nondecreasing. -/

/-- State of a `DebounceStream`: the holder's value, the pending delayed
task's wake time (the `StreamTask` holds at most one task), and the fires
with the times at which they occur. -/
structure DebounceState (α : Type) where
  holder : Option α
  taskAt : Option ℕ
  fires : List (ℕ × Option α)
deriving DecidableEq, Repr

/-- Deliver the pending delayed fire when its wake time has been reached by
`now`: `debounce_delay` fires the holder's current value and the task slot
is cleared by the done callback. -/
def debounceDeliver {α : Type} (s : DebounceState α) (now : ℕ) : DebounceState α :=
  match s.taskAt with
  | some ft => if ft ≤ now then ⟨s.holder, none, s.fires ++ [(ft, s.holder)]⟩ else s
  | none => s

/-- `__value_changed` at time `ev.1` with value `ev.2`: deliver any due
delayed fire first, then stash the value and, only when no task is pending,
schedule one to wake at `ev.1 + period`. -/
def debounceSet {α : Type} (P : ℕ) (s : DebounceState α) (ev : ℕ × Option α) :
    DebounceState α :=
  let s1 := debounceDeliver s ev.1
  let s2 : DebounceState α := ⟨ev.2, s1.taskAt, s1.fires⟩
  match s2.taskAt with
  | some _ => s2
  | none => ⟨s2.holder, some (ev.1 + P), s2.fires⟩

/-- Quiescence after the last event: a still-pending delayed task eventually
wakes and fires the holder's value. -/
def debounceFlush {α : Type} (s : DebounceState α) : List (ℕ × Option α) :=
  match s.taskAt with
  | some ft => s.fires ++ [(ft, s.holder)]
  | none => s.fires

/-- `DebounceStream.__init__` at time 0 over an upstream with value `v0`:
the constructor runs `__value_changed` once. -/
def debounceInit {α : Type} (P : ℕ) (v0 : Option α) : DebounceState α :=
  debounceSet P ⟨none, none, []⟩ (0, v0)

/-- A `DebounceStream` with period `P` over an upstream with value `v0` at
construction time 0, observing the timed upstream fires `sets` (times
nondecreasing) and then quiescing. -/
def debounceRun {α : Type} (P : ℕ) (v0 : Option α) (sets : List (ℕ × Option α)) :
    List (ℕ × Option α) :=
  debounceFlush (sets.foldl (debounceSet P) (debounceInit P v0))

/-- C2 counterexample: period 10, construction at time 0 (upstream value
`None`), a burst of two sets at times 20 and 23 (within one period of each
other).  The burst produces exactly one fire, carrying the last value, but
it occurs at time 30 = 20 + 10 — one period after the burst's FIRST set —
not at 33 = 23 + 10 as the claim's "approximately P after the last set"
requires.  (The fire at time 10 is the construction-scheduled one.) -/
theorem debounce_last_set_timing_counterexample :
    debounceRun 10 (none : Option ℕ) [(20, some 1), (23, some 2)] =
      [(10, none), (30, some 2)] ∧
    (30 : ℕ) ≠ 23 + 10 := by
  refine ⟨by decide, by decide⟩

theorem debounce_burst_fold {α : Type} (P t1 : ℕ) (w : Option α)
    (fs : List (ℕ × Option α)) (rest : List (ℕ × Option α))
    (hrest : ∀ e ∈ rest, e.1 < t1 + P) :
    rest.foldl (debounceSet P) ⟨w, some (t1 + P), fs⟩ =
      ⟨(rest.map Prod.snd).getLastD w, some (t1 + P), fs⟩ := by
  induction rest generalizing w with
  | nil => simp
  | cons e es ih =>
    have he : e.1 < t1 + P := hrest e (by simp)
    have hstep : debounceSet P ⟨w, some (t1 + P), fs⟩ e =
        ⟨e.2, some (t1 + P), fs⟩ := by
      simp [debounceSet, debounceDeliver, Nat.not_le.mpr he]
    rw [List.foldl_cons, hstep, ih e.2 (fun x hx => hrest x (by simp [hx]))]
    simp [← List.getLastD_eq_getLast?, List.getLastD_cons]

/-- C2 amended: for a burst of k ≥ 1 sets starting at time `t1` when no
delayed task is pending, with every set of the burst occurring before
`t1 + P`, the stream fires exactly once for the burst, at time `t1 + P` —
approximately `P` after the FIRST set of the burst, not the last — carrying
the last value set in the burst; and while a task is pending no new task is
scheduled (the pending wake time is unchanged by further sets), so at most
one delayed fire task is pending at any time. -/
theorem debounce_burst_amended {α : Type} (P t1 : ℕ) (v1 : Option α)
    (rest : List (ℕ × Option α)) (s : DebounceState α)
    (hidle : s.taskAt = none)
    (hrest : ∀ e ∈ rest, e.1 < t1 + P) :
    debounceFlush (((t1, v1) :: rest).foldl (debounceSet P) s) =
      s.fires ++ [(t1 + P, (rest.map Prod.snd).getLastD v1)] ∧
    (∀ (s2 : DebounceState α) (e : ℕ × Option α) (ft : ℕ),
      s2.taskAt = some ft → e.1 < ft → (debounceSet P s2 e).taskAt = some ft) := by
  constructor
  · have hfirst : debounceSet P s (t1, v1) = ⟨v1, some (t1 + P), s.fires⟩ := by
      simp [debounceSet, debounceDeliver, hidle]
    rw [List.foldl_cons, hfirst, debounce_burst_fold P t1 v1 s.fires rest hrest]
    simp [debounceFlush]
  · intro s2 e ft hft he
    simp [debounceSet, debounceDeliver, hft, Nat.not_le.mpr he]

/-- Instantiation of the amended C2 theorem: period 10, idle stream, burst of
sets (0, some 5) and (3, some 7): one fire at time 10 carrying 7; and a
pending task at wake time 30 is unchanged by a set at time 23. -/
theorem debounce_burst_amended_witness :
    debounceFlush ([((0 : ℕ), some (5 : ℕ)), (3, some 7)].foldl (debounceSet 10)
        ⟨none, none, []⟩) = [(10, some 7)] ∧
    (debounceSet 10 (⟨some 1, some 30, []⟩ : DebounceState ℕ) (23, some 2)).taskAt =
      some 30 := by
  have h := debounce_burst_amended 10 0 (some (5 : ℕ)) [(3, some 7)]
    ⟨none, none, []⟩ rfl (by intro e he; simp at he; simp [he])
  refine ⟨by simpa using h.1, h.2 ⟨some 1, some 30, []⟩ (23, some 2) 30 rfl (by decide)⟩

/-! FuncStreamValueModel (Model.py): the upstream stream carries zero-argument
functions.  `handle_value_func` cancels and replaces `self.__task` when one
is held, then creates a new `evaluate_value_func` task; that coroutine's
FIRST action is `self.__task = None`, after which it awaits the function on
the executor and assigns the result to `self.value`.  Functions are modelled
by a numeric id `fn`, and the evaluation result of `fn` as `some fn`. -/

/-- Phase of an `evaluate_value_func` task on the event loop. -/
inductive TaskPhase
  | created
  | running
  | cancelled
  | done
deriving DecidableEq, Repr

/-- A task evaluating submitted function `fn`. -/
structure EvalTask where
  fn : ℕ
  phase : TaskPhase
deriving DecidableEq, Repr

/-- State of a `FuncStreamValueModel`: every task created so far (task id =
position), the held `self.__task` handle, the model's property value, and
the most recently submitted function (the ghost the claim is about). -/
structure FuncModelState where
  tasks : List EvalTask
  held : Option ℕ
  modelValue : Option ℕ
  lastFn : Option ℕ
deriving DecidableEq, Repr

/-- Replace the phase of task `tid`, when it exists. -/
def setPhase (ts : List EvalTask) (tid : ℕ) (p : TaskPhase) : List EvalTask :=
  match ts[tid]? with
  | some t => ts.set tid ⟨t.fn, p⟩
  | none => ts

/-- An event-loop turn: `arrive fn` is `handle_value_func(fn)` (from the
stream listener or the constructor); `start tid` is the loop giving the
created task its first turn (it runs `self.__task = None` and then suspends
awaiting the executor); `finish tid` is the executor call returning and the
task resuming to assign the result. -/
inductive FuncEvent
  | arrive (fn : ℕ)
  | start (tid : ℕ)
  | finish (tid : ℕ)
deriving DecidableEq, Repr

/-- One event-loop turn of the `FuncStreamValueModel` machinery. -/
def funcStep (s : FuncModelState) : FuncEvent → FuncModelState
  | .arrive fn =>
    let s1 : FuncModelState :=
      match s.held with
      | some tid => { s with tasks := setPhase s.tasks tid .cancelled, held := none }
      | none => s
    { s1 with tasks := s1.tasks ++ [⟨fn, .created⟩]
              held := some s1.tasks.length
              lastFn := some fn }
  | .start tid =>
    match s.tasks[tid]? with
    | some t =>
      if t.phase = .created then
        { s with tasks := setPhase s.tasks tid .running, held := none }
      else s
    | none => s
  | .finish tid =>
    match s.tasks[tid]? with
    | some t =>
      if t.phase = .running then
        { s with tasks := setPhase s.tasks tid .done, modelValue := some t.fn }
      else s
    | none => s

/-- A `FuncStreamValueModel` starting with no tasks, observing the given
event-loop turns in order. -/
def funcRun (evs : List FuncEvent) : FuncModelState :=
  evs.foldl funcStep ⟨[], none, none, none⟩

/-- C3: evaluation of the interleaving — submit `f1`; its task starts
(clearing `self.__task`) and blocks in the executor; `f2` arrives, and since
`self.__task` is `None` nothing is cancelled; `f2`'s task starts, its
executor returns and `some 2` lands; then `f1`'s executor returns and its
never-cancelled task assigns the stale `some 1` over it.  The final model
value is the superseded function's result, not the most recently submitted
one's.  (By contrast, a task cancelled before its first turn never lands:
second conjunct group.) -/
theorem funcStreamValueModel_stale_result :
    (funcRun [.arrive 1, .start 0, .arrive 2, .start 1, .finish 1, .finish 0]).modelValue
      = some 1 ∧
    (funcRun [.arrive 1, .start 0, .arrive 2, .start 1, .finish 1, .finish 0]).lastFn
      = some 2 ∧
    (funcRun [.arrive 1, .start 0, .arrive 2, .start 1, .finish 1, .finish 0]).modelValue
      ≠ (funcRun [.arrive 1, .start 0, .arrive 2, .start 1, .finish 1, .finish 0]).lastFn ∧
    (funcRun [.arrive 1, .arrive 2, .start 1, .finish 1, .finish 0]).modelValue
      = some 2 ∧
    (funcRun [.arrive 1, .arrive 2]).tasks[0]? = some ⟨1, .cancelled⟩ := by
  refine ⟨by decide, by decide, by decide, by decide, by decide⟩

end Nion
